import Mathlib

/-!
Verification of the RNA cellular-automaton engine.

The development shallowly embeds the history component
(`src/simulator/universe_history.rs`), the Game of Life rule
(`src/game_of_life.rs`) and the cell encoding contract (`src/automaton.rs`).
The history code in the source is generic over a `Universe` trait whose
implementation (grids and diffs, files `universe.rs` / `grid.rs`) is not part
of the sources at hand; following the genericity of the source, the embedding is
parametric in the universe type `U`, the diff type `D` and a record of the
three diff operations the history calls (`diff`, `apply_diff`, `stack_mul`).
Rust `Vec` indexing and `panic!` are modelled with `Except String`: the
`.error` branch stands for a panic of the source.
-/

namespace RNA

/-- The three operations of the `Universe` / `UniverseDiff` traits that
`UniverseHistory` calls (`universe.rs` is absent from the sources; the
history code is generic over them, and so is this embedding).
`diff a b` is `a.diff(&b)`, `applyDiff a d` is `a.apply_diff(&d)`, and
`stack_mul ds` is `Diff::stack_mul(&ds)`. -/
structure DiffOps (U D : Type) where
  diff : U → U → D
  applyDiff : U → D → U
  stack_mul : List D → D

/-- Rust slice `l[a..b]` (for `a ≤ b ≤ l.length`, the only way the source
uses it). -/
def listSlice {α : Type} (l : List α) (a b : Nat) : List α :=
  (l.drop a).take (b - a)

/-- `UniverseHistory` struct: diff log, checkpoints, checkpoint frequency,
and the most recently pushed universe. -/
structure UniverseHistory (U D : Type) where
  diffs : List D
  checkpoints : List U
  f_check : Nat
  last : U

/-- Panic message of `get_diff` when `target_gen < ref_gen`
(`ERR_INCORRECT_DIFF` in the source). -/
def ERR_INCORRECT_DIFF : String :=
  "Base generation should be smaller than target generation."

/-- Panic message of `detach` on an unexpected request kind
(`ERR_INCOMPATIBLE_MAIL_TYPE` in the source). -/
def ERR_INCOMPATIBLE_MAIL_TYPE : String :=
  "The received HistoryRequest is incompatible with the MailType it is included in."

/-- Stands for the panic of an out-of-bounds `Vec` index. -/
def ERR_INDEX_OOB : String := "index out of bounds"

/-- Stands for the channel being closed while a nested blocking wait is
still pending (spec section 5: the service detects DeadChannel). -/
def ERR_DEAD_CHANNEL : String := "DeadChannel"

/-- `UniverseHistory::new`: empty diff log, the initial universe as the
single checkpoint and as `last`. -/
def UniverseHistory.new {U D : Type} (start_universe : U) (f_check : Nat) :
    UniverseHistory U D :=
  ⟨[], [start_universe], f_check, start_universe⟩

/-- `UniverseHistory::push`: append the diff from `last` to the new
universe; if `f_check` is non-zero and the new diff count is a multiple of
it, also append the universe as a checkpoint; update `last`. -/
def UniverseHistory.push {U D : Type} (ops : DiffOps U D)
    (h : UniverseHistory U D) (univ : U) : UniverseHistory U D :=
  let diff := ops.diff h.last univ
  let diffs := h.diffs ++ [diff]
  let checkpoints :=
    if h.f_check ≠ 0 ∧ diffs.length % h.f_check = 0 then
      h.checkpoints ++ [univ]
    else h.checkpoints
  ⟨diffs, checkpoints, h.f_check, univ⟩

/-- `UniverseHistory::get_gen`. `.ok none` is the `None` of the source
("generation not produced yet"); `.error` models the panic of an
out-of-bounds checkpoint index. -/
def UniverseHistory.get_gen {U D : Type} (ops : DiffOps U D)
    (h : UniverseHistory U D) (gen : Nat) : Except String (Option U) :=
  if h.diffs.length < gen then
    .ok none
  else
    if h.f_check ≠ 0 then
      let idx := gen / h.f_check
      let shift := gen % h.f_check
      match h.checkpoints[idx]? with
      | some c =>
          .ok (some (ops.applyDiff c (ops.stack_mul (listSlice h.diffs (gen - shift) gen))))
      | none => .error ERR_INDEX_OOB
    else
      match h.checkpoints[0]? with
      | some c =>
          .ok (some (ops.applyDiff c (ops.stack_mul (listSlice h.diffs 0 gen))))
      | none => .error ERR_INDEX_OOB

/-- `UniverseHistory::get_diff`. The `.error` branch models the source
`panic!(ERR_INCORRECT_DIFF)`. -/
def UniverseHistory.get_diff {U D : Type} (ops : DiffOps U D)
    (h : UniverseHistory U D) (ref_gen target_gen : Nat) :
    Except String (Option D) :=
  if target_gen < ref_gen then
    .error ERR_INCORRECT_DIFF
  else if h.diffs.length < target_gen then
    .ok none
  else
    .ok (some (ops.stack_mul (listSlice h.diffs ref_gen target_gen)))

/-- Folding `push` over a list of successive universes: the state of a
history built by a sequence of `Push`es. -/
def UniverseHistory.pushAll {U D : Type} (ops : DiffOps U D)
    (h : UniverseHistory U D) (gs : List U) : UniverseHistory U D :=
  gs.foldl (fun hh g => hh.push ops g) h

/-- `HistoryRequest` enum of `universe_history.rs`. -/
inductive HistoryRequest (U : Type) where
  | Push (g : U)
  | GetDiff (ref_gen target_gen : Nat) (blocking : Bool)
  | GetGen (gen : Nat) (blocking : Bool)

/-- `HistoryResponse` enum of `universe_history.rs`. -/
inductive HistoryResponse (U D : Type) where
  | GetDiff (d : Option D)
  | GetGen (g : Option U)

/-- Whether a request is a `Push`. -/
def HistoryRequest.isPush {U : Type} : HistoryRequest U → Bool
  | .Push _ => true
  | _ => false

/-- The nested blocking-wait loop of the `GetGen(gen, true)` branch of
`detach`: consume messages from the incoming stream; a `Push` is applied
and the query re-checked, any other request is the
`ERR_INCOMPATIBLE_MAIL_TYPE` panic. The incoming channel is modelled as
the list of messages that will arrive, in order (the transport
`advanced_channels.rs` is absent from the sources; modelled from the spec,
sections 5 and 6: FIFO delivery, `wait_for_msg` inside nested waits).
An exhausted stream models the DeadChannel case. On success, returns the
updated history, the response sent, and the unconsumed messages. -/
def nestedWaitGen {U D : Type} (ops : DiffOps U D) (h : UniverseHistory U D)
    (gen : Nat) :
    List (HistoryRequest U) →
    Except String (UniverseHistory U D × HistoryResponse U D × List (HistoryRequest U))
  | [] => .error ERR_DEAD_CHANNEL
  | HistoryRequest.Push g :: rest =>
      let h1 := h.push ops g
      match h1.get_gen ops gen with
      | .ok (some u) => .ok (h1, HistoryResponse.GetGen (some u), rest)
      | .ok none => nestedWaitGen ops h1 gen rest
      | .error e => .error e
  | _ :: _ => .error ERR_INCOMPATIBLE_MAIL_TYPE

/-- The nested blocking-wait loop of the `GetDiff(ref, tgt, true)` branch of
`detach`; analogous to `nestedWaitGen`. -/
def nestedWaitDiff {U D : Type} (ops : DiffOps U D) (h : UniverseHistory U D)
    (ref_gen target_gen : Nat) :
    List (HistoryRequest U) →
    Except String (UniverseHistory U D × HistoryResponse U D × List (HistoryRequest U))
  | [] => .error ERR_DEAD_CHANNEL
  | HistoryRequest.Push g :: rest =>
      let h1 := h.push ops g
      match h1.get_diff ops ref_gen target_gen with
      | .ok (some d) => .ok (h1, HistoryResponse.GetDiff (some d), rest)
      | .ok none => nestedWaitDiff ops h1 ref_gen target_gen rest
      | .error e => .error e
  | _ :: _ => .error ERR_INCOMPATIBLE_MAIL_TYPE

/-- One dispatch of `detach` for a request that carries a reply handle
(`MailType::Message(msg, Some(req))`). Returns the history after handling,
the response sent on the handle, and the messages left in the stream.
Note the non-blocking `GetDiff` "not yet" branch: the source replies with
the `GetGen` response variant (`universe_history.rs` line 129). -/
def respondToRequest {U D : Type} (ops : DiffOps U D) (h : UniverseHistory U D)
    (req : HistoryRequest U) (incoming : List (HistoryRequest U)) :
    Except String (UniverseHistory U D × HistoryResponse U D × List (HistoryRequest U)) :=
  match req with
  | HistoryRequest.GetGen gen blocking =>
      match h.get_gen ops gen with
      | .ok (some grid) => .ok (h, HistoryResponse.GetGen (some grid), incoming)
      | .ok none =>
          if blocking then nestedWaitGen ops h gen incoming
          else .ok (h, HistoryResponse.GetGen none, incoming)
      | .error e => .error e
  | HistoryRequest.GetDiff ref_gen target_gen blocking =>
      match h.get_diff ops ref_gen target_gen with
      | .ok (some d) => .ok (h, HistoryResponse.GetDiff (some d), incoming)
      | .ok none =>
          if blocking then nestedWaitDiff ops h ref_gen target_gen incoming
          else .ok (h, HistoryResponse.GetGen none, incoming)
      | .error e => .error e
  | HistoryRequest.Push _ => .error ERR_INCOMPATIBLE_MAIL_TYPE

/-- The diff built between consecutive elements of the chain
`g0, gs.head, …, gs.last`: the diff log of a history after pushing `gs`
starting from `g0`. -/
def chainDiffs {U D : Type} (ops : DiffOps U D) : U → List U → List D
  | _, [] => []
  | g, x :: xs => ops.diff g x :: chainDiffs ops x xs

/-- Last element of the chain `g0, gs…` (the `last` field after pushing
`gs`). -/
def lastOf {U : Type} : U → List U → U
  | g, [] => g
  | _, x :: xs => lastOf x xs

/-- The `gen`-th element of the chain `g0, gs…`: the grid at generation
`gen` when `g0` is generation 0 and `gs` are the pushed generations. -/
def nthGen {U : Type} : U → List U → Nat → U
  | g, _, 0 => g
  | g, [], _ + 1 => g
  | _, x :: xs, k + 1 => nthGen x xs k

/-- A concrete instance of the diff operations used to exercise the
generic theorems: universes are natural numbers, a diff either records the
target value (`some v`) or is the identity (`none`). -/
def natOps : DiffOps Nat (Option Nat) :=
  ⟨fun _ b => some b,
   fun a d => d.getD a,
   fun ds => ds.foldl (fun a d => match d with | some x => some x | none => a) none⟩

/-- `States` enum of `game_of_life.rs` (its `Default` is `Dead`). -/
inductive States where
  | Dead
  | Alive
  deriving DecidableEq, Repr

/-- Modelled from the spec: `grid.rs` is absent from the sources. Dense
row-major rectangular array of cells (spec section 3, "Grid"). -/
structure Grid where
  nb_rows : Nat
  nb_cols : Nat
  cells : List States
  deriving DecidableEq, Repr

/-- Modelled from the spec: `Grid::get` with the `Fixed(default)` boundary
policy (spec section 3, "Boundary policy"; section 8 fixes the Fixed-dead
boundary for the Game of Life scenarios): an out-of-range access yields the
default (dead) cell. -/
def Grid.getCell (g : Grid) (r c : Int) : States :=
  if 0 ≤ r ∧ r < (g.nb_rows : Int) ∧ 0 ≤ c ∧ c < (g.nb_cols : Int) then
    g.cells.getD (r.toNat * g.nb_cols + c.toNat) States.Dead
  else States.Dead

/-- Modelled from the spec: `GridView` (spec section 3), a read handle on a
grid focused at one position. -/
structure GridView where
  grid : Grid
  row : Int
  col : Int

/-- Modelled from the spec: the state of the focal cell (`grid.state()` in
`update_cpu`). -/
def GridView.state (v : GridView) : States :=
  v.grid.getCell v.row v.col

/-- Modelled from the spec: `Grid::get_multiple` (spec section 4.2):
resolve each relative offset from the focal position under the grid
boundary policy, in input order. -/
def GridView.get_multiple (v : GridView) (coords : List (Int × Int)) :
    List States :=
  coords.map (fun rc => v.grid.getCell (v.row + rc.1) (v.col + rc.2))

/-- Modelled from the spec: `Grid::view` (spec section 4.2). -/
def Grid.view (g : Grid) (r c : Int) : GridView :=
  ⟨g, r, c⟩

/-- The Moore neighborhood offsets exactly as listed in
`GameOfLife::update_cpu`. -/
def GameOfLife.neighbors : List (Int × Int) :=
  [(-1, -1), (-1, 0), (-1, 1), (0, 1), (1, 1), (1, 0), (1, -1), (0, -1)]

/-- `GameOfLife::update_cpu`: count the alive cells among the eight Moore
neighbors, then apply the birth/survival rule. -/
def GameOfLife.update_cpu (v : GridView) : States :=
  let neighbors := GameOfLife.neighbors
  let nb_alive_neighbors :=
    (v.get_multiple neighbors).foldl
      (fun cnt cell => match cell with
        | States.Alive => cnt + 1
        | States.Dead => cnt) 0
  match v.state with
  | States.Dead =>
      if nb_alive_neighbors = 3 then States.Alive else States.Dead
  | States.Alive =>
      if nb_alive_neighbors = 2 ∨ nb_alive_neighbors = 3 then States.Alive
      else States.Dead

/-- Modelled from the spec: `Universe::step` (spec section 4.3, the
`universe.rs` file is absent from the sources): an output grid of the same
dimensions whose cell at every position is `update_cpu` of the input grid
viewed at that position, in row-major order. -/
def step (g : Grid) : Grid :=
  ⟨g.nb_rows, g.nb_cols,
    (List.range (g.nb_rows * g.nb_cols)).map
      (fun i =>
        GameOfLife.update_cpu
          (g.view (Int.ofNat (i / g.nb_cols)) (Int.ofNat (i % g.nb_cols))))⟩

/-- `GameOfLife::id_from_state` (the encode direction of the GPU cell
encoding; the returned value is a `u32` in the source, and is `0` or `1`). -/
def GameOfLife.id_from_state : States → Nat
  | States.Dead => 0
  | States.Alive => 1

/-- `GameOfLife::state_from_id`: `none` models the
`panic!("Invalid grid state.")` branch for any id other than 0 and 1. -/
def GameOfLife.state_from_id (id : Nat) : Option States :=
  match id with
  | 0 => some States.Dead
  | 1 => some States.Alive
  | _ => none

/-- The 3x3 Blinker grid of spec section 8: alive cells
(1,0), (1,1), (1,2). -/
def blinker0 : Grid :=
  ⟨3, 3,
   [States.Dead, States.Dead, States.Dead,
    States.Alive, States.Alive, States.Alive,
    States.Dead, States.Dead, States.Dead]⟩

/-- The Blinker after one step: alive cells (0,1), (1,1), (2,1). -/
def blinker1 : Grid :=
  ⟨3, 3,
   [States.Dead, States.Alive, States.Dead,
    States.Dead, States.Alive, States.Dead,
    States.Dead, States.Alive, States.Dead]⟩

section HistoryLemmas

variable {U D : Type} (ops : DiffOps U D)

theorem push_diffs (h : UniverseHistory U D) (g : U) :
    (h.push ops g).diffs = h.diffs ++ [ops.diff h.last g] := rfl

theorem push_last (h : UniverseHistory U D) (g : U) :
    (h.push ops g).last = g := rfl

theorem push_f_check (h : UniverseHistory U D) (g : U) :
    (h.push ops g).f_check = h.f_check := rfl

theorem push_checkpoints (h : UniverseHistory U D) (g : U) :
    (h.push ops g).checkpoints =
      if h.f_check ≠ 0 ∧ (h.diffs.length + 1) % h.f_check = 0 then
        h.checkpoints ++ [g]
      else h.checkpoints := by
  simp [UniverseHistory.push]

theorem pushAll_nil (h : UniverseHistory U D) :
    h.pushAll ops [] = h := rfl

theorem pushAll_cons (h : UniverseHistory U D) (g : U) (gs : List U) :
    h.pushAll ops (g :: gs) = (h.push ops g).pushAll ops gs := rfl

theorem pushAll_concat (h : UniverseHistory U D) (gs : List U) (g : U) :
    h.pushAll ops (gs ++ [g]) = (h.pushAll ops gs).push ops g := by
  simp [UniverseHistory.pushAll, List.foldl_append]

theorem pushAll_f_check (h : UniverseHistory U D) (gs : List U) :
    (h.pushAll ops gs).f_check = h.f_check := by
  induction gs generalizing h with
  | nil => rfl
  | cons x xs ih => rw [pushAll_cons, ih, push_f_check]

theorem pushAll_last (h : UniverseHistory U D) (gs : List U) :
    (h.pushAll ops gs).last = lastOf h.last gs := by
  induction gs generalizing h with
  | nil => rfl
  | cons x xs ih => rw [pushAll_cons, ih, push_last, lastOf]

theorem pushAll_diffs (h : UniverseHistory U D) (gs : List U) :
    (h.pushAll ops gs).diffs = h.diffs ++ chainDiffs ops h.last gs := by
  induction gs generalizing h with
  | nil => simp [pushAll_nil, chainDiffs]
  | cons x xs ih =>
      rw [pushAll_cons, ih, push_diffs, push_last, chainDiffs]
      simp

theorem chainDiffs_length (g0 : U) (gs : List U) :
    (chainDiffs ops g0 gs).length = gs.length := by
  induction gs generalizing g0 with
  | nil => rfl
  | cons x xs ih => simp [chainDiffs, ih]

theorem nthGen_zero (g0 : U) (gs : List U) : nthGen g0 gs 0 = g0 := by
  cases gs <;> rfl

theorem nthGen_cons_succ (g0 x : U) (xs : List U) (k : Nat) :
    nthGen g0 (x :: xs) (k + 1) = nthGen x xs k := rfl

theorem nthGen_append_le (g0 g : U) (gs : List U) (k : Nat)
    (hk : k ≤ gs.length) :
    nthGen g0 (gs ++ [g]) k = nthGen g0 gs k := by
  induction gs generalizing g0 k with
  | nil =>
      have : k = 0 := Nat.le_zero.mp hk
      subst this
      rfl
  | cons x xs ih =>
      cases k with
      | zero => simp [nthGen_zero]
      | succ k =>
          rw [List.cons_append, nthGen_cons_succ, nthGen_cons_succ]
          exact ih x k (Nat.le_of_succ_le_succ hk)

theorem nthGen_append_len (g0 g : U) (gs : List U) :
    nthGen g0 (gs ++ [g]) (gs.length + 1) = g := by
  induction gs generalizing g0 with
  | nil => rfl
  | cons x xs ih =>
      rw [List.cons_append, List.length_cons, nthGen_cons_succ]
      exact ih x

theorem lastOf_eq_nthGen (g0 : U) (gs : List U) :
    lastOf g0 gs = nthGen g0 gs gs.length := by
  induction gs generalizing g0 with
  | nil => rfl
  | cons x xs ih => rw [lastOf, List.length_cons, nthGen_cons_succ]; exact ih x

theorem pushAll_checkpoints_zero (h : UniverseHistory U D) (gs : List U)
    (hf : h.f_check = 0) :
    (h.pushAll ops gs).checkpoints = h.checkpoints := by
  induction gs generalizing h with
  | nil => rfl
  | cons x xs ih =>
      rw [pushAll_cons, ih _ (by rw [push_f_check]; exact hf),
        push_checkpoints, if_neg]
      simp [hf]

theorem checkpoints_spec (g0 : U) (f : Nat) (hf : f ≠ 0) (gs : List U) :
    ((UniverseHistory.new g0 f : UniverseHistory U D).pushAll ops gs).checkpoints.length
        = gs.length / f + 1 ∧
      ∀ i, i < gs.length / f + 1 →
        ((UniverseHistory.new g0 f : UniverseHistory U D).pushAll ops gs).checkpoints[i]?
          = some (nthGen g0 gs (i * f)) := by
  induction gs using List.reverseRecOn with
  | nil =>
      refine ⟨by simp [pushAll_nil, UniverseHistory.new], ?_⟩
      intro i hi
      simp only [List.length_nil, Nat.zero_div] at hi
      have hi0 : i = 0 := by omega
      subst hi0
      simp [pushAll_nil, UniverseHistory.new, nthGen_zero]
  | append_singleton gs g ih =>
      obtain ⟨ihlen, ihval⟩ := ih
      have hdl : ((UniverseHistory.new g0 f : UniverseHistory U D).pushAll ops gs).diffs.length
          = gs.length := by
        rw [pushAll_diffs]
        simp [UniverseHistory.new, chainDiffs_length]
      have hfc : ((UniverseHistory.new g0 f : UniverseHistory U D).pushAll ops gs).f_check = f := by
        rw [pushAll_f_check]
        rfl
      have hmull : ∀ i : Nat, i < gs.length / f + 1 → i * f ≤ gs.length := by
        intro i hile
        calc i * f ≤ gs.length / f * f := Nat.mul_le_mul_right f (by omega)
          _ ≤ gs.length := Nat.div_mul_le_self gs.length f
      rw [pushAll_concat, push_checkpoints, hdl, hfc]
      by_cases hmod : (gs.length + 1) % f = 0
      · have hdvd : f ∣ gs.length + 1 := Nat.dvd_of_mod_eq_zero hmod
        have hdiv : (gs.length + 1) / f = gs.length / f + 1 :=
          Nat.succ_div_of_dvd hdvd
        rw [if_pos ⟨hf, hmod⟩]
        constructor
        · simp [ihlen, List.length_append, hdiv]
        · intro i hi
          rw [List.length_append, List.length_singleton, hdiv] at hi
          by_cases hile : i < gs.length / f + 1
          · rw [List.getElem?_append, if_pos (by rw [ihlen]; exact hile),
              ihval i hile, nthGen_append_le g0 g gs (i * f) (hmull i hile)]
          · have hieq : i = gs.length / f + 1 := by omega
            have hmul : i * f = gs.length + 1 := by
              rw [hieq, ← hdiv]
              exact Nat.div_mul_cancel hdvd
            rw [List.getElem?_append_right (by rw [ihlen]; omega), ihlen, hieq]
            rw [Nat.sub_self]
            rw [show (gs.length / f + 1) * f = gs.length + 1 from hieq ▸ hmul,
              nthGen_append_len]
            rfl
      · have hndvd : ¬ f ∣ gs.length + 1 :=
          fun hd => hmod (Nat.mod_eq_zero_of_dvd hd)
        have hdiv : (gs.length + 1) / f = gs.length / f :=
          Nat.succ_div_of_not_dvd hndvd
        rw [if_neg (fun hcon => hmod hcon.2)]
        constructor
        · rw [ihlen]
          simp only [List.length_append, List.length_singleton, hdiv]
        · intro i hi
          rw [List.length_append, List.length_singleton, hdiv] at hi
          rw [ihval i hi, nthGen_append_le g0 g gs (i * f) (hmull i hi)]

theorem chainDiffs_cons (g0 x : U) (xs : List U) :
    chainDiffs ops g0 (x :: xs) = ops.diff g0 x :: chainDiffs ops x xs := rfl

theorem replay_seg
    (hac : ∀ a b, ops.applyDiff a (ops.diff a b) = b)
    (hnil : ∀ a, ops.applyDiff a (ops.stack_mul []) = a)
    (hcons : ∀ a d ds, ops.applyDiff a (ops.stack_mul (d :: ds))
      = ops.applyDiff (ops.applyDiff a d) (ops.stack_mul ds)) :
    ∀ (gs : List U) (g0 : U) (m k : Nat), m + k ≤ gs.length →
      ops.applyDiff (nthGen g0 gs m)
          (ops.stack_mul (((chainDiffs ops g0 gs).drop m).take k))
        = nthGen g0 gs (m + k) := by
  intro gs
  induction gs with
  | nil =>
      intro g0 m k hmk
      simp only [List.length_nil, Nat.le_zero] at hmk
      have hm : m = 0 := by omega
      have hk : k = 0 := by omega
      subst hm
      subst hk
      simpa [chainDiffs] using hnil g0
  | cons x xs ih =>
      intro g0 m k hmk
      have hmk1 : m + k ≤ xs.length + 1 := by
        simpa [List.length_cons] using hmk
      cases m with
      | zero =>
          cases k with
          | zero => simpa using hnil (nthGen g0 (x :: xs) 0)
          | succ k =>
              rw [nthGen_zero, List.drop_zero, chainDiffs_cons,
                List.take_succ_cons, hcons, hac]
              have hres := ih x 0 k (by omega)
              rw [nthGen_zero, List.drop_zero] at hres
              rw [hres]
              rw [show (0 : Nat) + (k + 1) = k + 1 from by omega,
                nthGen_cons_succ]
              rw [show (0 : Nat) + k = k from by omega]
      | succ m =>
          rw [chainDiffs_cons, List.drop_succ_cons, nthGen_cons_succ]
          rw [show m + 1 + k = (m + k) + 1 from by omega, nthGen_cons_succ]
          exact ih x m k (by omega)

theorem get_gen_spec
    (hac : ∀ a b, ops.applyDiff a (ops.diff a b) = b)
    (hnil : ∀ a, ops.applyDiff a (ops.stack_mul []) = a)
    (hcons : ∀ a d ds, ops.applyDiff a (ops.stack_mul (d :: ds))
      = ops.applyDiff (ops.applyDiff a d) (ops.stack_mul ds))
    (g0 : U) (f : Nat) (gs : List U) (gen : Nat) :
    ((UniverseHistory.new g0 f : UniverseHistory U D).pushAll ops gs).get_gen ops gen
      = .ok (if gs.length < gen then none else some (nthGen g0 gs gen)) := by
  have hdiffs : ((UniverseHistory.new g0 f : UniverseHistory U D).pushAll ops gs).diffs
      = chainDiffs ops g0 gs := by
    rw [pushAll_diffs]
    simp [UniverseHistory.new]
  have hlen : ((UniverseHistory.new g0 f : UniverseHistory U D).pushAll ops gs).diffs.length
      = gs.length := by
    rw [hdiffs, chainDiffs_length]
  have hfc : ((UniverseHistory.new g0 f : UniverseHistory U D).pushAll ops gs).f_check = f := by
    rw [pushAll_f_check]
    rfl
  have hclen : (chainDiffs ops g0 gs).length = gs.length := chainDiffs_length ops g0 gs
  by_cases hlt : gs.length < gen
  · simp [UniverseHistory.get_gen, hlen, hlt]
  · by_cases hf : f = 0
    · subst hf
      have hcp : ((UniverseHistory.new g0 0 : UniverseHistory U D).pushAll ops gs).checkpoints
          = [g0] := by
        rw [pushAll_checkpoints_zero ops (UniverseHistory.new g0 0) gs rfl]
        rfl
      have hrep := replay_seg ops hac hnil hcons gs g0 0 gen (by omega)
      rw [nthGen_zero, List.drop_zero, Nat.zero_add] at hrep
      simp [UniverseHistory.get_gen, hlen, hlt, hfc, hcp, listSlice, hdiffs,
        hclen, hrep]
    · obtain ⟨hcpl, hcpv⟩ := checkpoints_spec ops g0 f hf gs
      have hidxlt : gen / f < gs.length / f + 1 :=
        Nat.lt_succ_of_le (Nat.div_le_div_right (by omega))
      have hidx := hcpv (gen / f) hidxlt
      have hadm := Nat.div_add_mod gen f
      have hsub : gen - gen % f = gen / f * f := by
        have h1 : gen - gen % f = f * (gen / f) := by omega
        rw [h1, Nat.mul_comm]
      have hmk : gen / f * f + gen % f = gen := by
        rw [Nat.mul_comm]
        exact hadm
      have htake : gen - gen / f * f = gen % f := by omega
      have hrep := replay_seg ops hac hnil hcons gs g0 (gen / f * f) (gen % f)
        (by omega)
      rw [hmk] at hrep
      simp [UniverseHistory.get_gen, hlen, hlt, hfc, hf, hidx, listSlice,
        hdiffs, hclen, hsub, htake, hrep]

theorem nestedWaitGen_push (h : UniverseHistory U D) (gen : Nat) (g : U)
    (rest : List (HistoryRequest U)) :
    nestedWaitGen ops h gen (HistoryRequest.Push g :: rest)
      = match (h.push ops g).get_gen ops gen with
        | .ok (some u) => .ok (h.push ops g, HistoryResponse.GetGen (some u), rest)
        | .ok none => nestedWaitGen ops (h.push ops g) gen rest
        | .error e => .error e := rfl

theorem nestedWaitGen_reply :
    ∀ (ps : List U) (h : UniverseHistory U D) (gen : Nat) (u : U)
      (tail : List (HistoryRequest U)),
      ps ≠ [] →
      (∀ k, k < ps.length →
        (h.pushAll ops (ps.take k)).get_gen ops gen = .ok none) →
      (h.pushAll ops ps).get_gen ops gen = .ok (some u) →
      nestedWaitGen ops h gen (ps.map HistoryRequest.Push ++ tail)
        = .ok (h.pushAll ops ps, HistoryResponse.GetGen (some u), tail) := by
  intro ps
  induction ps with
  | nil => intro h gen u tail hne; exact absurd rfl hne
  | cons x xs ih =>
      intro h gen u tail _ hunsat hsat
      rw [List.map_cons, List.cons_append, nestedWaitGen_push]
      cases xs with
      | nil =>
          have hsat1 : (h.push ops x).get_gen ops gen = .ok (some u) := hsat
          rw [hsat1]
          rfl
      | cons y ys =>
          have h1unsat : (h.push ops x).get_gen ops gen = .ok none := by
            have h1 := hunsat 1 (by simp [List.length_cons])
            simpa [UniverseHistory.pushAll] using h1
          rw [h1unsat]
          rw [show (h.pushAll ops (x :: y :: ys))
              = ((h.push ops x).pushAll ops (y :: ys)) from rfl]
          apply ih (h.push ops x) gen u tail (by simp)
          · intro k hk
            have hk2 : k + 1 < (x :: y :: ys).length := by
              simp only [List.length_cons] at hk ⊢
              omega
            have h2 := hunsat (k + 1) hk2
            rw [List.take_succ_cons] at h2
            exact h2
          · exact hsat

theorem nestedWaitGen_violation :
    ∀ (qs : List U) (h : UniverseHistory U D) (gen : Nat)
      (r : HistoryRequest U) (tail : List (HistoryRequest U)),
      r.isPush = false →
      (∀ k, k ≤ qs.length →
        (h.pushAll ops (qs.take k)).get_gen ops gen = .ok none) →
      nestedWaitGen ops h gen (qs.map HistoryRequest.Push ++ r :: tail)
        = .error ERR_INCOMPATIBLE_MAIL_TYPE := by
  intro qs
  induction qs with
  | nil =>
      intro h gen r tail hr _
      cases r with
      | Push g => simp [HistoryRequest.isPush] at hr
      | GetDiff a b bl => rfl
      | GetGen a bl => rfl
  | cons x xs ih =>
      intro h gen r tail hr hunsat
      rw [List.map_cons, List.cons_append, nestedWaitGen_push]
      have h1unsat : (h.push ops x).get_gen ops gen = .ok none := by
        have h1 := hunsat 1 (by simp [List.length_cons])
        simpa [UniverseHistory.pushAll] using h1
      rw [h1unsat]
      apply ih (h.push ops x) gen r tail hr
      intro k hk
      have hk2 : k + 1 ≤ (x :: xs).length := by
        simp only [List.length_cons] at hk ⊢
        omega
      have h2 := hunsat (k + 1) hk2
      rw [List.take_succ_cons] at h2
      exact h2

end HistoryLemmas

section NatOpsLemmas

/-- The fold used by `natOps.stack_mul`, with an arbitrary accumulator. -/
theorem natOps_fold_getD (ds : List (Option Nat)) :
    ∀ (d : Option Nat) (a : Nat),
      (ds.foldl (fun x y => match y with | some v => some v | none => x) d).getD a
        = (ds.foldl (fun x y => match y with | some v => some v | none => x) none).getD
            (d.getD a) := by
  induction ds with
  | nil => intro d a; rfl
  | cons x xs ih =>
      intro d a
      cases x with
      | some v => exact (ih (some v) a).trans (ih (some v) (d.getD a)).symm
      | none => exact ih d a

theorem natOps_apply_diff : ∀ a b, natOps.applyDiff a (natOps.diff a b) = b :=
  fun _ _ => rfl

theorem natOps_stack_nil : ∀ a, natOps.applyDiff a (natOps.stack_mul []) = a :=
  fun _ => rfl

theorem natOps_stack_cons :
    ∀ a d ds, natOps.applyDiff a (natOps.stack_mul (d :: ds))
      = natOps.applyDiff (natOps.applyDiff a d) (natOps.stack_mul ds) := by
  intro a d ds
  show (List.foldl _ (match d with | some v => some v | none => (none : Option Nat)) ds).getD a
    = (List.foldl _ (none : Option Nat) ds).getD (d.getD a)
  rw [show (match d with | some v => some v | none => (none : Option Nat)) = d from by
    cases d <;> rfl]
  exact natOps_fold_getD ds d a

end NatOpsLemmas

section Claims

/-- C1: for every history created by `new(initial_grid, f_check)` and then
given a sequence of pushed grids, and for every `f_check`, `get_gen g`
returns `None` exactly when `g` exceeds the number of pushes, and otherwise
the `g`-th grid of the sequence (the initial grid for `g = 0`), assuming
the diff operations satisfy the apply/compose laws of spec section 4.4. -/
theorem get_gen_replays_push_sequence {U D : Type} (ops : DiffOps U D)
    (hac : ∀ a b, ops.applyDiff a (ops.diff a b) = b)
    (hnil : ∀ a, ops.applyDiff a (ops.stack_mul []) = a)
    (hcons : ∀ a d ds, ops.applyDiff a (ops.stack_mul (d :: ds))
      = ops.applyDiff (ops.applyDiff a d) (ops.stack_mul ds))
    (g0 : U) (f_check : Nat) (gs : List U) (gen : Nat) :
    ((UniverseHistory.new g0 f_check : UniverseHistory U D).pushAll ops gs).get_gen ops gen
      = .ok (if gs.length < gen then none else some (nthGen g0 gs gen)) :=
  get_gen_spec ops hac hnil hcons g0 f_check gs gen

/-- Witness for C1: a concrete history with two pushes and `f_check = 2`;
`get_gen 1` returns the first pushed universe. -/
theorem get_gen_replays_push_sequence_witness :
    ((UniverseHistory.new 7 2 : UniverseHistory Nat (Option Nat)).pushAll natOps
        [3, 9]).get_gen natOps 1
      = .ok (some 3) := by
  have h := get_gen_replays_push_sequence natOps natOps_apply_diff
    natOps_stack_nil natOps_stack_cons 7 2 [3, 9] 1
  simpa [nthGen] using h

/-- C2: if `f_check > 0`, after any sequence of `n` pushes the checkpoints
list holds exactly `1 + n / f_check` grids, and checkpoint `i` is the grid
at generation `i * f_check` (the initial grid for `i = 0`); stated over
every push sequence, this is the invariant each push preserves. -/
theorem checkpoints_aligned_with_f_check {U D : Type} (ops : DiffOps U D)
    (g0 : U) (f_check : Nat) (gs : List U) (hf : f_check ≠ 0) :
    ((UniverseHistory.new g0 f_check : UniverseHistory U D).pushAll ops gs).checkpoints.length
        = gs.length / f_check + 1 ∧
      ∀ i, i < gs.length / f_check + 1 →
        ((UniverseHistory.new g0 f_check : UniverseHistory U D).pushAll ops gs).checkpoints[i]?
          = some (nthGen g0 gs (i * f_check)) :=
  checkpoints_spec ops g0 f_check hf gs

/-- Witness for C2: five pushes with `f_check = 2` give three checkpoints,
and checkpoint 2 is the grid at generation 4. -/
theorem checkpoints_aligned_with_f_check_witness :
    ((UniverseHistory.new 7 2 : UniverseHistory Nat (Option Nat)).pushAll natOps
        [1, 2, 3, 4, 5]).checkpoints.length = 3 ∧
    ((UniverseHistory.new 7 2 : UniverseHistory Nat (Option Nat)).pushAll natOps
        [1, 2, 3, 4, 5]).checkpoints[2]? = some 4 := by
  obtain ⟨h1, h2⟩ := checkpoints_aligned_with_f_check natOps 7 2 [1, 2, 3, 4, 5]
    (by decide)
  refine ⟨by simpa using h1, ?_⟩
  have h3 := h2 2 (by norm_num)
  simpa [nthGen] using h3

/-- C3: for every reachable history state, `get_gen` at `diffs.len()`
returns the stored `last` universe, assuming the diff laws of spec
section 4.4. -/
theorem get_gen_at_len_returns_last {U D : Type} (ops : DiffOps U D)
    (hac : ∀ a b, ops.applyDiff a (ops.diff a b) = b)
    (hnil : ∀ a, ops.applyDiff a (ops.stack_mul []) = a)
    (hcons : ∀ a d ds, ops.applyDiff a (ops.stack_mul (d :: ds))
      = ops.applyDiff (ops.applyDiff a d) (ops.stack_mul ds))
    (g0 : U) (f_check : Nat) (gs : List U) :
    ((UniverseHistory.new g0 f_check : UniverseHistory U D).pushAll ops gs).get_gen ops
        ((UniverseHistory.new g0 f_check : UniverseHistory U D).pushAll ops gs).diffs.length
      = .ok (some ((UniverseHistory.new g0 f_check : UniverseHistory U D).pushAll ops gs).last) := by
  have hlen : ((UniverseHistory.new g0 f_check : UniverseHistory U D).pushAll ops gs).diffs.length
      = gs.length := by
    rw [pushAll_diffs]
    simp [UniverseHistory.new, chainDiffs_length]
  have hlast : ((UniverseHistory.new g0 f_check : UniverseHistory U D).pushAll ops gs).last
      = lastOf g0 gs := by
    rw [pushAll_last]
    rfl
  rw [hlen, hlast, get_gen_spec ops hac hnil hcons, lastOf_eq_nthGen]
  simp

/-- Witness for C3: with `f_check = 0` and two pushes, `get_gen 2` returns
the last push. -/
theorem get_gen_at_len_returns_last_witness :
    ((UniverseHistory.new 7 0 : UniverseHistory Nat (Option Nat)).pushAll natOps
        [4, 6]).get_gen natOps 2
      = .ok (some 6) :=
  get_gen_at_len_returns_last natOps natOps_apply_diff natOps_stack_nil
    natOps_stack_cons 7 0 [4, 6]

/-- C4: the failure of the source to answer a non-blocking not-yet `GetDiff`
with the `GetDiff` response variant. On a fresh history (no diffs),
`GetDiff(0, 5, false)` is answered with `HistoryResponse::GetGen(None)`,
not `HistoryResponse::GetDiff(None)` as the interface table of the spec
requires (`universe_history.rs` line 129; spec section 9 flags this as a
bug of the source). -/
theorem getDiff_not_yet_answers_with_getGen_variant :
    respondToRequest natOps (UniverseHistory.new 0 3 : UniverseHistory Nat (Option Nat))
        (HistoryRequest.GetDiff 0 5 false) []
      = .ok (UniverseHistory.new 0 3, HistoryResponse.GetGen none, []) := rfl

/-- C5: `get_diff(ref, target)` panics with the invalid-range message
exactly when `ref > target`; otherwise it returns `None` iff
`target > diffs.len()`, and `Some(stack_mul(diffs[ref..target]))` when
`target ≤ diffs.len()`. -/
theorem get_diff_range_behavior {U D : Type} (ops : DiffOps U D)
    (h : UniverseHistory U D) (ref_gen target_gen : Nat) :
    (h.get_diff ops ref_gen target_gen = .error ERR_INCORRECT_DIFF
      ↔ target_gen < ref_gen) ∧
    (h.get_diff ops ref_gen target_gen = .ok none
      ↔ (ref_gen ≤ target_gen ∧ h.diffs.length < target_gen)) ∧
    (ref_gen ≤ target_gen → target_gen ≤ h.diffs.length →
      h.get_diff ops ref_gen target_gen
        = .ok (some (ops.stack_mul (listSlice h.diffs ref_gen target_gen)))) := by
  by_cases h1 : target_gen < ref_gen
  · refine ⟨by simp [UniverseHistory.get_diff, h1], ?_, ?_⟩
    · simp [UniverseHistory.get_diff, h1]
      try omega
    · intro hc
      omega
  · by_cases h2 : h.diffs.length < target_gen
    · refine ⟨by simp [UniverseHistory.get_diff, h1, h2], ?_, ?_⟩
      · simp [UniverseHistory.get_diff, h1, h2]
        try omega
      · intro _ hc
        omega
    · refine ⟨by simp [UniverseHistory.get_diff, h1, h2], ?_, ?_⟩
      · simp [UniverseHistory.get_diff, h1, h2]
        try omega
      · intro _ _
        simp [UniverseHistory.get_diff, h1, h2]

/-- Witness for C5: on a history with two diffs, `get_diff 0 2` returns the
stacked slice (here, the diff recording the latest value). -/
theorem get_diff_range_behavior_witness :
    ((UniverseHistory.new 7 0 : UniverseHistory Nat (Option Nat)).pushAll natOps
        [1, 2]).get_diff natOps 0 2
      = .ok (some (some 2)) :=
  (get_diff_range_behavior natOps
      ((UniverseHistory.new 7 0 : UniverseHistory Nat (Option Nat)).pushAll natOps [1, 2])
      0 2).2.2 (by decide) (by decide)

/-- C6: on a blocking `GetGen` that is not yet satisfiable, the nested wait
applies every incoming `Push`, re-checks after each, and replies exactly at
the first `Push` that satisfies the query, leaving later messages
unconsumed; and if a non-`Push` request arrives during the nested wait
after any number of pushes that still leave the query unsatisfiable, the
service panics with the protocol-violation message. The push prefixes of
the two scenarios are independent: `ps` leads to satisfiability, while
after all of `qs` the query is still unsatisfiable when `r` arrives. -/
theorem nested_wait_replies_at_first_satisfying_push {U D : Type}
    (ops : DiffOps U D) (h : UniverseHistory U D) (gen : Nat)
    (ps qs : List U) (u : U) (r : HistoryRequest U)
    (tail : List (HistoryRequest U))
    (hne : ps ≠ [])
    (hunsat : ∀ k, k < ps.length →
      (h.pushAll ops (ps.take k)).get_gen ops gen = .ok none)
    (hsat : (h.pushAll ops ps).get_gen ops gen = .ok (some u))
    (hqunsat : ∀ k, k ≤ qs.length →
      (h.pushAll ops (qs.take k)).get_gen ops gen = .ok none)
    (hr : r.isPush = false) :
    nestedWaitGen ops h gen (ps.map HistoryRequest.Push ++ tail)
      = .ok (h.pushAll ops ps, HistoryResponse.GetGen (some u), tail) ∧
    nestedWaitGen ops h gen (qs.map HistoryRequest.Push ++ r :: tail)
      = .error ERR_INCOMPATIBLE_MAIL_TYPE := by
  constructor
  · exact nestedWaitGen_reply ops ps h gen u tail hne hunsat hsat
  · exact nestedWaitGen_violation ops qs h gen r tail hr hqunsat

/-- Witness for C6: a blocking `GetGen(2)` on a fresh history is satisfied
exactly at the second of the pushes 5, 6; and a non-`Push` message arriving
after a single push, with the query still a further push away, is the
protocol-violation panic. -/
theorem nested_wait_replies_at_first_satisfying_push_witness :
    nestedWaitGen natOps (UniverseHistory.new 0 0 : UniverseHistory Nat (Option Nat)) 2
        [HistoryRequest.Push 5, HistoryRequest.Push 6]
      = .ok ((UniverseHistory.new 0 0 : UniverseHistory Nat (Option Nat)).pushAll natOps [5, 6],
          HistoryResponse.GetGen (some 6), []) ∧
    nestedWaitGen natOps (UniverseHistory.new 0 0 : UniverseHistory Nat (Option Nat)) 2
        [HistoryRequest.Push 5, HistoryRequest.GetGen 9 false]
      = .error ERR_INCOMPATIBLE_MAIL_TYPE := by
  have h := nested_wait_replies_at_first_satisfying_push natOps
    (UniverseHistory.new 0 0 : UniverseHistory Nat (Option Nat)) 2 [5, 6] [5] 6
    (HistoryRequest.GetGen 9 false) [] (by simp)
    (by intro k hk
        simp only [List.length_cons, List.length_nil] at hk
        have hk01 : k = 0 ∨ k = 1 := by omega
        rcases hk01 with h0 | h1
        · subst h0; rfl
        · subst h1; rfl)
    rfl
    (by intro k hk
        simp only [List.length_cons, List.length_nil] at hk
        have hk01 : k = 0 ∨ k = 1 := by omega
        rcases hk01 with h0 | h1
        · subst h0; rfl
        · subst h1; rfl)
    rfl
  exact ⟨h.1, h.2⟩

/-- C7: the Blinker oscillates with period 2 under the Game of Life rule
applied at every position of a 3x3 grid with fixed dead boundary. -/
theorem blinker_period_two :
    step blinker0 = blinker1 ∧ step (step blinker0) = blinker0 := by
  exact ⟨by decide, by decide⟩

/-- C8: decoding the encoding of any Game of Life cell state returns that
state: the encode/decode round-trip law of the cell contract. -/
theorem state_id_roundtrip :
    ∀ s : States, GameOfLife.state_from_id (GameOfLife.id_from_state s) = some s := by
  intro s
  cases s <;> rfl

/-- C9: for every reachable history state and every generation up to
`diffs.len()`, `get_gen` only performs in-bounds accesses: the checkpoint
index `gen / f_check` is within the checkpoints vector when
`f_check > 0`, and the call returns `Some` of a grid without panicking. -/
theorem get_gen_in_bounds_no_panic {U D : Type} (ops : DiffOps U D)
    (g0 : U) (f_check : Nat) (gs : List U) (gen : Nat)
    (hgen : gen ≤ gs.length) :
    gen ≤ ((UniverseHistory.new g0 f_check : UniverseHistory U D).pushAll ops gs).diffs.length ∧
    (((UniverseHistory.new g0 f_check : UniverseHistory U D).pushAll ops gs).f_check ≠ 0 →
      gen / ((UniverseHistory.new g0 f_check : UniverseHistory U D).pushAll ops gs).f_check
        < ((UniverseHistory.new g0 f_check : UniverseHistory U D).pushAll ops gs).checkpoints.length) ∧
    ∃ u, ((UniverseHistory.new g0 f_check : UniverseHistory U D).pushAll ops gs).get_gen ops gen
      = .ok (some u) := by
  have hlen : ((UniverseHistory.new g0 f_check : UniverseHistory U D).pushAll ops gs).diffs.length
      = gs.length := by
    rw [pushAll_diffs]
    simp [UniverseHistory.new, chainDiffs_length]
  have hfc : ((UniverseHistory.new g0 f_check : UniverseHistory U D).pushAll ops gs).f_check
      = f_check := by
    rw [pushAll_f_check]
    rfl
  have hnlt : ¬ ((UniverseHistory.new g0 f_check : UniverseHistory U D).pushAll ops gs).diffs.length < gen := by
    omega
  refine ⟨by omega, ?_, ?_⟩
  · intro hne
    rw [hfc] at hne
    rw [hfc, (checkpoints_spec ops g0 f_check hne gs).1]
    exact Nat.lt_succ_of_le (Nat.div_le_div_right hgen)
  · by_cases hf : f_check = 0
    · subst hf
      have hcp : ((UniverseHistory.new g0 0 : UniverseHistory U D).pushAll ops gs).checkpoints
          = [g0] := by
        rw [pushAll_checkpoints_zero ops (UniverseHistory.new g0 0) gs rfl]
        rfl
      refine ⟨ops.applyDiff g0 (ops.stack_mul
        (listSlice ((UniverseHistory.new g0 0 : UniverseHistory U D).pushAll ops gs).diffs 0 gen)), ?_⟩
      simp [UniverseHistory.get_gen, hnlt, hfc, hcp]
    · have hidx := (checkpoints_spec ops g0 f_check hf gs).2 (gen / f_check)
        (Nat.lt_succ_of_le (Nat.div_le_div_right hgen))
      refine ⟨ops.applyDiff (nthGen g0 gs (gen / f_check * f_check)) (ops.stack_mul
        (listSlice ((UniverseHistory.new g0 f_check : UniverseHistory U D).pushAll ops gs).diffs
          (gen - gen % f_check) gen)), ?_⟩
      simp [UniverseHistory.get_gen, hnlt, hfc, hf, hidx]

/-- Witness for C9: three pushes with `f_check = 2`, `get_gen 3` is
in-bounds and returns a grid. -/
theorem get_gen_in_bounds_no_panic_witness :
    3 ≤ ((UniverseHistory.new 7 2 : UniverseHistory Nat (Option Nat)).pushAll natOps [1, 2, 3]).diffs.length ∧
    (((UniverseHistory.new 7 2 : UniverseHistory Nat (Option Nat)).pushAll natOps [1, 2, 3]).f_check ≠ 0 →
      3 / ((UniverseHistory.new 7 2 : UniverseHistory Nat (Option Nat)).pushAll natOps [1, 2, 3]).f_check
        < ((UniverseHistory.new 7 2 : UniverseHistory Nat (Option Nat)).pushAll natOps [1, 2, 3]).checkpoints.length) ∧
    ∃ u, ((UniverseHistory.new 7 2 : UniverseHistory Nat (Option Nat)).pushAll natOps [1, 2, 3]).get_gen natOps 3
      = .ok (some u) :=
  get_gen_in_bounds_no_panic natOps 7 2 [1, 2, 3] 3 (by decide)

/-- C10: `state_from_id` returns `Dead` for 0 and `Alive` for 1, and
panics (modelled as `none`) for every other id, so decoding is defined
only on the image of `id_from_state`. -/
theorem state_from_id_defined_only_on_image :
    GameOfLife.state_from_id 0 = some States.Dead ∧
    GameOfLife.state_from_id 1 = some States.Alive ∧
    ∀ id, 2 ≤ id → GameOfLife.state_from_id id = none := by
  refine ⟨rfl, rfl, ?_⟩
  intro id hid
  cases id with
  | zero => omega
  | succ n =>
      cases n with
      | zero => omega
      | succ m => rfl

/-- Witness for C10: id 7 decodes to the panic branch. -/
theorem state_from_id_defined_only_on_image_witness :
    GameOfLife.state_from_id 7 = none :=
  state_from_id_defined_only_on_image.2.2 7 (by decide)

end Claims

end RNA
